import Mathlib

/-!
Shallow embedding of the PumpToken watcher bot (src/index.webhook.js):
the block-driven event ingestion pipeline with its dedup set and cursor,
the metadata enricher, the notification fanout filter, the market-cap
alert registry and the market-cap monitor.  Maps are embedded as
association lists (JS Map), sets as lists (JS Set), JS numbers used in
the market-cap arithmetic as rationals, and every fallible outbound call
as an Option-valued oracle (none = the call threw and was caught).
-/

namespace PumpWatch

/-- A decoded Deployed(address,uint256) factory log: token address and
dev-buy amount (uint256, base units). -/
structure Log where
  addr : String
  amount : Nat
deriving DecidableEq, Repr

/-- Dedup key of a decoded event, mirroring the template literal
addr ++ ":" ++ amount.toString() at line 473 of index.webhook.js. -/
def dedupKey (l : Log) : String := l.addr ++ ":" ++ toString l.amount

/-- The per-log loop of the block handler (lines 468-536): for each log,
if its key is already in sentKeys it is skipped; otherwise the key is
added to sentKeys first, and only then enrichment and delivery are
attempted.  The oracle f says whether that attempt succeeds (true) or
throws and is swallowed by the inner catch (false); either way the key
stays recorded.  Returns (new sentKeys, delivered events in order). -/
def processLogs (f : Log → Bool) : List String → List Log → List String × List Log
  | s, [] => (s, [])
  | s, l :: rest =>
    if dedupKey l ∈ s then processLogs f s rest
    else
      let r := processLogs f (dedupKey l :: s) rest
      (r.1, if f l then l :: r.2 else r.2)

/-- Cursor initialization at line 462: if (!lastProcessed) lastProcessed = bn - 1. -/
def initCursor (bn lp : Int) : Int := if lp = 0 then bn - 1 else lp

/-- Result of one block-handler invocation: the cursor (lastProcessed),
the dedup set (sentKeys) and the list of delivered events. -/
structure CycleResult where
  cursor : Int
  keys : List String
  delivered : List Log
deriving Repr

/-- One invocation of the provider.on block handler (lines 460-539).
bn is the signalled height, lp the current lastProcessed, keys the
current sentKeys.  q models the getLogs call: none means it rejected
(caught by the outer catch, so the cursor assignment at line 537 is
never reached), some logs means it resolved.  f is the per-event
enrichment/delivery oracle. -/
def processBlockCycle (bn lp : Int) (keys : List String) (q : Option (List Log))
    (f : Log → Bool) : CycleResult :=
  let lp0 := initCursor bn lp
  if lp0 + 1 > bn then ⟨lp0, keys, []⟩
  else
    match q with
    | none => ⟨lp0, keys, []⟩
    | some logs =>
      let r := processLogs f keys logs
      ⟨bn, r.1, r.2⟩

theorem processLogs_keys_mono (f : Log → Bool) (a : String) :
    ∀ (ls : List Log) (s : List String), a ∈ s → a ∈ (processLogs f s ls).1 := by
  intro ls
  induction ls with
  | nil => intro s h; simpa [processLogs] using h
  | cons l rest ih =>
    intro s h
    by_cases hk : dedupKey l ∈ s
    · simpa [processLogs, hk] using ih s h
    · simpa [processLogs, hk] using ih (dedupKey l :: s) (by simp [h])

theorem processLogs_keys_complete (f : Log → Bool) (l : Log) :
    ∀ (ls : List Log) (s : List String), l ∈ ls → dedupKey l ∈ (processLogs f s ls).1 := by
  intro ls
  induction ls with
  | nil => intro s h; simp at h
  | cons l0 rest ih =>
    intro s h
    rcases List.mem_cons.mp h with h0 | h0
    · subst h0
      by_cases hk : dedupKey l ∈ s
      · simpa [processLogs, hk] using processLogs_keys_mono f (dedupKey l) rest s hk
      · simpa [processLogs, hk] using
          processLogs_keys_mono f (dedupKey l) rest (dedupKey l :: s) (by simp)
    · by_cases hk : dedupKey l0 ∈ s
      · simpa [processLogs, hk] using ih s h0
      · simpa [processLogs, hk] using ih (dedupKey l0 :: s) h0

theorem processLogs_delivered_fresh (f : Log → Bool) (l : Log) :
    ∀ (ls : List Log) (s : List String), l ∈ (processLogs f s ls).2 → dedupKey l ∉ s := by
  intro ls
  induction ls with
  | nil => intro s h; simp [processLogs] at h
  | cons l0 rest ih =>
    intro s h
    by_cases hk : dedupKey l0 ∈ s
    · exact ih s (by simpa [processLogs, hk] using h)
    · simp only [processLogs, hk, if_false] at h
      by_cases hf : f l0 = true
      · simp [hf] at h
        rcases h with h | h
        · subst h; exact hk
        · intro hs
          exact ih (dedupKey l0 :: s) h (by simp [hs])
      · simp [hf] at h
        intro hs
        exact ih (dedupKey l0 :: s) h (by simp [hs])

theorem processLogs_delivered_subset (f : Log → Bool) (l : Log) :
    ∀ (ls : List Log) (s : List String), l ∈ (processLogs f s ls).2 → l ∈ ls := by
  intro ls
  induction ls with
  | nil => intro s h; simp [processLogs] at h
  | cons l0 rest ih =>
    intro s h
    by_cases hk : dedupKey l0 ∈ s
    · exact List.mem_cons_of_mem _ (ih s (by simpa [processLogs, hk] using h))
    · simp only [processLogs, hk, if_false] at h
      by_cases hf : f l0 = true
      · simp [hf] at h
        rcases h with h | h
        · simp [h]
        · exact List.mem_cons_of_mem _ (ih (dedupKey l0 :: s) h)
      · simp [hf] at h
        exact List.mem_cons_of_mem _ (ih (dedupKey l0 :: s) h)

theorem processLogs_delivered_nodup (f : Log → Bool) :
    ∀ (ls : List Log) (s : List String), ((processLogs f s ls).2.map dedupKey).Nodup := by
  intro ls
  induction ls with
  | nil => intro s; simp [processLogs]
  | cons l0 rest ih =>
    intro s
    by_cases hk : dedupKey l0 ∈ s
    · simpa [processLogs, hk] using ih s
    · simp only [processLogs, hk, if_false]
      by_cases hf : f l0 = true
      · simp only [hf, if_true, List.map_cons, List.nodup_cons]
        refine ⟨?_, ih (dedupKey l0 :: s)⟩
        intro hmem
        rcases List.mem_map.mp hmem with ⟨l1, hl1, hkey⟩
        have := processLogs_delivered_fresh f l1 rest (dedupKey l0 :: s) hl1
        exact this (by simp [hkey])
      · simpa [hf] using ih (dedupKey l0 :: s)

theorem processLogs_delivered_key_mem (f : Log → Bool) (l : Log) (ls : List Log)
    (s : List String) (h : l ∈ (processLogs f s ls).2) :
    dedupKey l ∈ (processLogs f s ls).1 :=
  processLogs_keys_complete f l ls s (processLogs_delivered_subset f l ls s h)

/-- C1: a dedup key is recorded the moment an event is decoded, before any
enrichment or delivery attempt (so it is recorded even when the attempt
fails), and across any two processing cycles with overlapping fetched
logs an event whose key is already in the set is skipped; hence no
(address, amount) pair is ever delivered twice, nor delivered at all if
its key was already in the set. -/
theorem dedup_no_double_delivery (S : List String) (f1 f2 : Log → Bool)
    (logs1 logs2 : List Log) :
    (∀ l ∈ logs1, dedupKey l ∈ (processLogs f1 S logs1).1) ∧
    (∀ l ∈ logs2, dedupKey l ∈ (processLogs f1 S logs1).1 →
       l ∉ (processLogs f2 (processLogs f1 S logs1).1 logs2).2) ∧
    (((processLogs f1 S logs1).2 ++
        (processLogs f2 (processLogs f1 S logs1).1 logs2).2).map dedupKey).Nodup ∧
    (∀ l ∈ (processLogs f1 S logs1).2 ++
        (processLogs f2 (processLogs f1 S logs1).1 logs2).2, dedupKey l ∉ S) := by
  refine ⟨?_, ?_, ?_, ?_⟩
  · intro l hl
    exact processLogs_keys_complete f1 l logs1 S hl
  · intro l _ hk hmem
    exact processLogs_delivered_fresh f2 l logs2 _ hmem hk
  · rw [List.map_append, List.nodup_append]
    refine ⟨processLogs_delivered_nodup f1 logs1 S,
            processLogs_delivered_nodup f2 logs2 _, ?_⟩
    intro k hk1 hk2
    rcases List.mem_map.mp hk1 with ⟨l1, hl1, hkey1⟩
    rcases List.mem_map.mp hk2 with ⟨l2, hl2, hkey2⟩
    have hin : dedupKey l1 ∈ (processLogs f1 S logs1).1 :=
      processLogs_delivered_key_mem f1 l1 logs1 S hl1
    have hout : dedupKey l2 ∉ (processLogs f1 S logs1).1 :=
      processLogs_delivered_fresh f2 l2 logs2 _ hl2
    exact hout (by rw [hkey2, ← hkey1]; exact hin)
  · intro l hl
    rcases List.mem_append.mp hl with h | h
    · exact processLogs_delivered_fresh f1 l logs1 S h
    · intro hS
      exact processLogs_delivered_fresh f2 l logs2 _ h
        (processLogs_keys_mono f1 (dedupKey l) logs1 S hS)

/-- C1 witness: the second cycle refetches an overlapping range containing
the already-delivered key, which is skipped. -/
theorem dedup_no_double_delivery_witness :
    (∀ l ∈ [Log.mk "0xa" 7], dedupKey l ∈
        (processLogs (fun _ => true) [] [Log.mk "0xa" 7]).1) ∧
    (∀ l ∈ [Log.mk "0xa" 7, Log.mk "0xb" 3],
       dedupKey l ∈ (processLogs (fun _ => true) [] [Log.mk "0xa" 7]).1 →
       l ∉ (processLogs (fun _ => true)
              (processLogs (fun _ => true) [] [Log.mk "0xa" 7]).1
              [Log.mk "0xa" 7, Log.mk "0xb" 3]).2) ∧
    (((processLogs (fun _ => true) [] [Log.mk "0xa" 7]).2 ++
        (processLogs (fun _ => true)
           (processLogs (fun _ => true) [] [Log.mk "0xa" 7]).1
           [Log.mk "0xa" 7, Log.mk "0xb" 3]).2).map dedupKey).Nodup ∧
    (∀ l ∈ (processLogs (fun _ => true) [] [Log.mk "0xa" 7]).2 ++
        (processLogs (fun _ => true)
           (processLogs (fun _ => true) [] [Log.mk "0xa" 7]).1
           [Log.mk "0xa" 7, Log.mk "0xb" 3]).2, dedupKey l ∉ []) :=
  dedup_no_double_delivery [] (fun _ => true) (fun _ => true)
    [Log.mk "0xa" 7] [Log.mk "0xa" 7, Log.mk "0xb" 3]

/-- C2 counterexample to the literal claim on the very first signal: with
lastProcessed = 0 and bn = 5, the handler first initializes the cursor to
bn - 1 = 4, and a failed getLogs then leaves it at 4, not at its prior
value 0 — so a cycle exists where the query fails yet the cursor changed. -/
theorem cursor_not_advanced_counterexample :
    (processBlockCycle 5 0 [] none (fun _ => true)).cursor = 4 ∧ (4 : Int) ≠ 0 := by
  constructor
  · rfl
  · decide

/-- C2 amended: once the cursor is initialized (lastProcessed is nonzero), a failed
log query leaves the cursor and the dedup set unchanged and delivers
nothing; on the first signal the cursor is initialized to bn - 1 before
the query and a failure leaves it there; and whenever the query succeeds
on a nonempty range the cursor advances to bn unconditionally, for every
per-event enrichment/delivery outcome f. -/
theorem cursor_error_handling (bn lp : Int) (S : List String) (f : Log → Bool) :
    (lp ≠ 0 → processBlockCycle bn lp S none f = ⟨lp, S, []⟩) ∧
    (lp = 0 → processBlockCycle bn lp S none f = ⟨bn - 1, S, []⟩) ∧
    (∀ logs, initCursor bn lp + 1 ≤ bn →
       (processBlockCycle bn lp S (some logs) f).cursor = bn) := by
  refine ⟨?_, ?_, ?_⟩
  · intro hlp
    simp only [processBlockCycle, initCursor, hlp, if_false]
    by_cases h : lp + 1 > bn <;> simp [h]
  · intro hlp
    subst hlp
    simp only [processBlockCycle, initCursor, if_true]
    by_cases h : bn - 1 + 1 > bn <;> simp [h]
  · intro logs hrange
    simp only [processBlockCycle]
    rw [if_neg (by omega)]

/-- C2 witness: an already-initialized cursor survives a failed query, and a
successful query on a nonempty range advances it even when every event
fails enrichment/delivery. -/
theorem cursor_error_handling_witness :
    processBlockCycle 9 4 [] none (fun _ => false) = ⟨4, [], []⟩ ∧
    (processBlockCycle 9 4 [] (some [Log.mk "0xa" 7]) (fun _ => false)).cursor = 9 := by
  constructor
  · exact (cursor_error_handling 9 4 [] (fun _ => false)).1 (by decide)
  · exact (cursor_error_handling 9 4 [] (fun _ => false)).2.2 [Log.mk "0xa" 7]
      (by norm_num [initCursor])

/-- The unset sentinel for missing metadata fields, the literal at line 488. -/
def SENTINEL : String := "无"

/-- JS String.prototype.trim: drop whitespace from both ends. -/
def jsTrim (s : String) : String :=
  ⟨((s.data.dropWhile Char.isWhitespace).reverse.dropWhile Char.isWhitespace).reverse⟩

/-- toText at line 488: a falsy (empty) or whitespace-only string renders as
the sentinel, anything else as itself. -/
def toText (v : String) : String := if jsTrim v = "" then SENTINEL else v

/-- Results of the six independent metadata fetches for one event
(lines 480-487); none models a rejected promise, swallowed by that
fetch's own catch which substitutes the empty string. -/
structure FetchResults where
  descRes : Option String
  webRes : Option String
  tgRes : Option String
  twRes : Option String
  symbolRes : Option String
  decimalsRes : Option Nat
deriving Repr, DecidableEq

/-- The rendered message fields of an enriched event. -/
structure Enriched where
  symbolText : String
  decimalsText : String
  web : String
  tg : String
  tw : String
  desc : String
deriving Repr, DecidableEq

/-- Enrichment rendering at lines 488-494: every string field goes through
toText applied to the fetch result or the catch fallback; decimals uses
the strict non-empty check at line 490, so a failed fetch (fallback, the
empty string) renders as the sentinel and a fetched value renders as its
decimal string. -/
def enrich (r : FetchResults) : Enriched where
  symbolText := toText (r.symbolRes.getD "")
  decimalsText :=
    match r.decimalsRes with
    | none => SENTINEL
    | some d => toString d
  web := toText (r.webRes.getD "")
  tg := toText (r.tgRes.getD "")
  tw := toText (r.twRes.getD "")
  desc := toText (r.descRes.getD "")

/-- Per-user push preferences (userPushPrefs entry, defaults at line 59). -/
structure Prefs where
  requireMediaLink : Bool
  mcUsdThreshold : Option Nat
  lang : String
deriving Repr, DecidableEq

def defaultPrefs : Prefs := ⟨false, none, "en"⟩

/-- hasMedia at line 501: some link field is truthy and not the sentinel. -/
def hasMedia (e : Enriched) : Bool :=
  [e.web, e.tg, e.tw].any (fun v => !(v == "") && !(v == SENTINEL))

/-- The subscriber loop of the fanout (lines 497-534): each subscriber with
requireMediaLink on is skipped unless hasMedia holds; everyone else gets
exactly one sendMessage call for the event. -/
def deliveriesForEvent (subs : List Nat) (prefs : Nat → Prefs) (e : Enriched) : List Nat :=
  subs.filter (fun uid => !(prefs uid).requireMediaLink || hasMedia e)

/-- A fetched string that renders as itself: nonblank and distinct from the
sentinel. -/
def presentable (s : String) : Prop := jsTrim s ≠ "" ∧ s ≠ SENTINEL

theorem toText_of_presentable (s : String) (h : presentable s) : toText s = s := by
  simp [toText, h.1]

theorem toText_empty : toText "" = SENTINEL := by
  simp [toText, jsTrim]

theorem toText_ne_empty (s : String) : toText s ≠ "" := by
  unfold toText
  split
  · simp [SENTINEL]
  · intro h
    subst h
    simp [jsTrim] at *

/-- C7: the six metadata fetches are independently fault-tolerant: whichever
single fetch fails, every other field carries its fetched value and only
the failed field renders as the unset sentinel (the fetched values being
nonblank and distinct from the sentinel). -/
theorem metadata_fault_isolated (d w t tw sy : String) (dec : Nat)
    (hd : presentable d) (hw : presentable w) (ht : presentable t)
    (htw : presentable tw) (hs : presentable sy) :
    enrich ⟨none, some w, some t, some tw, some sy, some dec⟩ =
      ⟨sy, toString dec, w, t, tw, SENTINEL⟩ ∧
    enrich ⟨some d, none, some t, some tw, some sy, some dec⟩ =
      ⟨sy, toString dec, SENTINEL, t, tw, d⟩ ∧
    enrich ⟨some d, some w, none, some tw, some sy, some dec⟩ =
      ⟨sy, toString dec, w, SENTINEL, tw, d⟩ ∧
    enrich ⟨some d, some w, some t, none, some sy, some dec⟩ =
      ⟨sy, toString dec, w, t, SENTINEL, d⟩ ∧
    enrich ⟨some d, some w, some t, some tw, none, some dec⟩ =
      ⟨SENTINEL, toString dec, w, t, tw, d⟩ ∧
    enrich ⟨some d, some w, some t, some tw, some sy, none⟩ =
      ⟨sy, SENTINEL, w, t, tw, d⟩ := by
  refine ⟨?_, ?_, ?_, ?_, ?_, ?_⟩ <;>
    simp [enrich, toText_empty, toText_of_presentable d hd, toText_of_presentable w hw,
      toText_of_presentable t ht, toText_of_presentable tw htw, toText_of_presentable sy hs]

/-- C7 witness at concrete fetched values, with the website fetch failing. -/
theorem metadata_fault_isolated_witness :
    enrich ⟨some "a token", none, some "tg1", some "tw1", some "SYM", some 18⟩ =
      ⟨"SYM", toString 18, SENTINEL, "tg1", "tw1", "a token"⟩ :=
  (metadata_fault_isolated "a token" "w" "tg1" "tw1" "SYM" 18
    (by constructor <;> decide) (by constructor <;> decide) (by constructor <;> decide)
    (by constructor <;> decide) (by constructor <;> decide)).2.1

/-- C6: for a subscriber with requireMediaLink on, an enriched event whose
three link fields are all the sentinel produces no notification for them,
and an event with at least one non-sentinel link field produces exactly
one notification for them. -/
theorem media_filter_delivery (r : FetchResults) (subs : List Nat) (u : Nat)
    (prefs : Nat → Prefs) (hmem : u ∈ subs) (hnd : subs.Nodup)
    (hreq : (prefs u).requireMediaLink = true) :
    (((enrich r).web = SENTINEL ∧ (enrich r).tg = SENTINEL ∧ (enrich r).tw = SENTINEL) →
       u ∉ deliveriesForEvent subs prefs (enrich r)) ∧
    (((enrich r).web ≠ SENTINEL ∨ (enrich r).tg ≠ SENTINEL ∨ (enrich r).tw ≠ SENTINEL) →
       (deliveriesForEvent subs prefs (enrich r)).count u = 1) := by
  constructor
  · rintro ⟨h1, h2, h3⟩ hin
    have := List.of_mem_filter hin
    simp only [hreq, Bool.not_true, Bool.false_or] at this
    simp [hasMedia, h1, h2, h3] at this
  · intro hcase
    have hmedia : hasMedia (enrich r) = true := by
      have hweb : (enrich r).web ≠ "" := by
        simpa [enrich] using toText_ne_empty (r.webRes.getD "")
      have htg : (enrich r).tg ≠ "" := by
        simpa [enrich] using toText_ne_empty (r.tgRes.getD "")
      have htw : (enrich r).tw ≠ "" := by
        simpa [enrich] using toText_ne_empty (r.twRes.getD "")
      rcases hcase with h | h | h <;> simp [hasMedia, hweb, htg, htw, h]
    have hpass : (fun uid => !(prefs uid).requireMediaLink || hasMedia (enrich r)) u = true := by
      simp [hmedia]
    have hin : u ∈ deliveriesForEvent subs prefs (enrich r) :=
      List.mem_filter.mpr ⟨hmem, hpass⟩
    exact List.count_eq_one_of_mem (hnd.filter _) hin

/-- C6 witness: subscriber 7 requires media links; the all-sentinel event is
suppressed and the event with one real website link is delivered once. -/
theorem media_filter_delivery_witness :
    (((enrich ⟨some "d", some "", some "", some "", some "S", some 9⟩).web = SENTINEL ∧
      (enrich ⟨some "d", some "", some "", some "", some "S", some 9⟩).tg = SENTINEL ∧
      (enrich ⟨some "d", some "", some "", some "", some "S", some 9⟩).tw = SENTINEL) →
       7 ∉ deliveriesForEvent [7] (fun _ => ⟨true, none, "en"⟩)
         (enrich ⟨some "d", some "", some "", some "", some "S", some 9⟩)) ∧
    7 ∉ deliveriesForEvent [7] (fun _ => ⟨true, none, "en"⟩)
        (enrich ⟨some "d", some "", some "", some "", some "S", some 9⟩) ∧
    (deliveriesForEvent [7] (fun _ => ⟨true, none, "en"⟩)
        (enrich ⟨some "d", some "https://x", some "", some "", some "S", some 9⟩)).count 7 = 1 := by
  have h1 := media_filter_delivery ⟨some "d", some "", some "", some "", some "S", some 9⟩
    [7] 7 (fun _ => ⟨true, none, "en"⟩) (by decide) (by decide) (by decide)
  have h2 := media_filter_delivery ⟨some "d", some "https://x", some "", some "", some "S", some 9⟩
    [7] 7 (fun _ => ⟨true, none, "en"⟩) (by decide) (by decide) (by decide)
  refine ⟨h1.1, h1.1 (by decide), h2.2 (by decide)⟩

/-- One marketCapAlerts entry: its lastPushed timestamp and subscriber set. -/
structure AlertData where
  lastPushed : Nat
  users : List Nat
deriving Repr, DecidableEq

/-- The marketCapAlerts map (line 54): insertion-ordered association list. -/
abbrev AlertReg := List (String × AlertData)

/-- Map lookup: marketCapAlerts.get(addr) (and .has via isSome). -/
def regGet (reg : AlertReg) (addr : String) : Option AlertData :=
  (reg.find? (fun e => e.1 == addr)).map (fun e => e.2)

/-- JS Set.add on a user set. -/
def insertUser (uid : Nat) (us : List Nat) : List Nat :=
  if uid ∈ us then us else us ++ [uid]

/-- addToMarketCapAlerts (lines 144-150): create the entry if absent, then
add the user to its set. -/
def addToMarketCapAlerts (reg : AlertReg) (now : Nat) (addr : String) (uid : Nat) : AlertReg :=
  if (regGet reg addr).isSome then
    reg.map (fun e => if e.1 = addr then (e.1, ⟨e.2.lastPushed, insertUser uid e.2.users⟩) else e)
  else
    reg ++ [(addr, ⟨now, [uid]⟩)]

/-- The per-entry body shared by removal paths: delete uid from the entry's
set and drop the entry entirely if the set became empty. -/
def pruneEntry (uid : Nat) (e : String × AlertData) : Option (String × AlertData) :=
  let us := e.2.users.filter (fun u => u != uid)
  if us = [] then none else some (e.1, ⟨e.2.lastPushed, us⟩)

/-- removeFromMarketCapAlerts (lines 153-162): prune uid from the entry for
addr only, deleting it once its user set is empty. -/
def removeFromMarketCapAlerts (reg : AlertReg) (addr : String) (uid : Nat) : AlertReg :=
  reg.filterMap (fun e => if e.1 = addr then pruneEntry uid e else some e)

/-- The clear_all_alerts callback (lines 396-405): prune uid from every
entry, deleting entries whose user set became empty. -/
def clearAllAlerts (reg : AlertReg) (uid : Nat) : AlertReg :=
  reg.filterMap (fun e => pruneEntry uid e)

/-- Well-formedness of the registry: keys are unique (it is a JS Map) and
an entry exists only with a non-empty subscriber set. -/
def regWF (reg : AlertReg) : Prop :=
  (reg.map Prod.fst).Nodup ∧ ∀ e ∈ reg, e.2.users ≠ []

theorem regGet_isSome_iff (reg : AlertReg) (addr : String) :
    (regGet reg addr).isSome = true ↔ addr ∈ reg.map Prod.fst := by
  simp only [regGet, Option.isSome_map', List.find?_isSome, List.mem_map]
  constructor
  · rintro ⟨e, he, hp⟩
    exact ⟨e, he, by simpa using hp⟩
  · rintro ⟨e, he, hp⟩
    exact ⟨e, he, by simpa using hp⟩

theorem regGet_eq_none_iff (reg : AlertReg) (addr : String) :
    regGet reg addr = none ↔ addr ∉ reg.map Prod.fst := by
  constructor
  · intro h hmem
    have hs := (regGet_isSome_iff reg addr).mpr hmem
    rw [h] at hs
    simp at hs
  · intro h
    cases hg : regGet reg addr with
    | none => rfl
    | some ad => exact absurd ((regGet_isSome_iff reg addr).mp (by rw [hg]; rfl)) h

theorem regGet_of_mem (reg : AlertReg) (e : String × AlertData)
    (hnd : (reg.map Prod.fst).Nodup) (he : e ∈ reg) : regGet reg e.1 = some e.2 := by
  induction reg with
  | nil => simp at he
  | cons e1 rest ih =>
    simp only [List.map_cons, List.nodup_cons] at hnd
    rcases List.mem_cons.mp he with h | h
    · subst h
      unfold regGet
      rw [List.find?_cons_of_pos (p := fun x => x.1 == e.1) rest (by simp)]
      rfl
    · have hne1 : ¬ ((fun x => x.1 == e.1) e1 = true) := by
        simp only [beq_iff_eq]
        intro hq
        exact hnd.1 (by rw [hq]; exact List.mem_map_of_mem Prod.fst h)
      unfold regGet
      rw [List.find?_cons_of_neg (p := fun x => x.1 == e.1) rest hne1]
      exact ih hnd.2 h

theorem insertUser_ne_nil (uid : Nat) (us : List Nat) : insertUser uid us ≠ [] := by
  unfold insertUser
  split
  · intro h
    rename_i hm
    subst h
    simp at hm
  · simp

theorem insertUser_mem_self (uid : Nat) (us : List Nat) : uid ∈ insertUser uid us := by
  unfold insertUser
  split
  · assumption
  · simp

theorem insertUser_mem_of (uid a : Nat) (us : List Nat) (h : a ∈ us) :
    a ∈ insertUser uid us := by
  unfold insertUser
  split
  · exact h
  · simp [h]

theorem pruneEntry_fst (uid : Nat) (e x : String × AlertData)
    (h : pruneEntry uid e = some x) : x.1 = e.1 := by
  by_cases hc : e.2.users.filter (fun u => u != uid) = []
  · simp [pruneEntry, hc] at h
  · simp [pruneEntry, hc] at h
    simp [← h]

theorem pruneEntry_users_ne_nil (uid : Nat) (e x : String × AlertData)
    (h : pruneEntry uid e = some x) : x.2.users ≠ [] := by
  by_cases hc : e.2.users.filter (fun u => u != uid) = []
  · simp [pruneEntry, hc] at h
  · simp [pruneEntry, hc] at h
    rw [← h]
    simpa using hc

theorem filterMap_keys_sublist (g : String × AlertData → Option (String × AlertData))
    (hg : ∀ e x, g e = some x → x.1 = e.1) :
    ∀ reg : AlertReg, ((reg.filterMap g).map Prod.fst).Sublist (reg.map Prod.fst) := by
  intro reg
  induction reg with
  | nil => simp
  | cons e rest ih =>
    rw [List.filterMap_cons]
    cases hge : g e with
    | none =>
      simp only [List.map_cons]
      exact ih.cons e.1
    | some x =>
      simp only [List.map_cons, hg e x hge]
      exact ih.cons₂ e.1

theorem addToMarketCapAlerts_keys_of_mem (reg : AlertReg) (now : Nat) (addr : String)
    (uid : Nat) (h : addr ∈ reg.map Prod.fst) :
    (addToMarketCapAlerts reg now addr uid).map Prod.fst = reg.map Prod.fst := by
  rw [addToMarketCapAlerts, if_pos ((regGet_isSome_iff reg addr).mpr h)]
  rw [List.map_map]
  refine List.map_congr_left ?_
  intro e _
  by_cases he : e.1 = addr <;> simp [he]

/-- C8: the registry invariant — unique keys, and an entry exists only with
a non-empty subscriber set — is preserved by enroll, unenroll and
clear-all; and unenrolling the last subscriber of a token deletes its
entry, so the subsequent lookup finds none. -/
theorem alert_registry_invariant (reg : AlertReg) (now : Nat) (addr : String) (uid : Nat) :
    (regWF reg → regWF (addToMarketCapAlerts reg now addr uid)) ∧
    (regWF reg → regWF (removeFromMarketCapAlerts reg addr uid)) ∧
    (regWF reg → regWF (clearAllAlerts reg uid)) ∧
    (∀ ad, regWF reg → regGet reg addr = some ad →
       ad.users.filter (fun u => u != uid) = [] →
       regGet (removeFromMarketCapAlerts reg addr uid) addr = none) := by
  have hgfst : ∀ e x, (if e.1 = addr then pruneEntry uid e else some e) = some x → x.1 = e.1 := by
    intro e x h
    by_cases he : e.1 = addr
    · exact pruneEntry_fst uid e x (by simpa [he] using h)
    · simp [he] at h
      simp [← h]
  refine ⟨?_, ?_, ?_, ?_⟩
  · rintro ⟨hnd, hne⟩
    by_cases hmem : addr ∈ reg.map Prod.fst
    · refine ⟨by rw [addToMarketCapAlerts_keys_of_mem reg now addr uid hmem]; exact hnd, ?_⟩
      intro e he
      rw [addToMarketCapAlerts, if_pos ((regGet_isSome_iff reg addr).mpr hmem)] at he
      rcases List.mem_map.mp he with ⟨e0, he0, hfe⟩
      by_cases h0 : e0.1 = addr
      · simp only [h0, if_true] at hfe
        rw [← hfe]
        exact insertUser_ne_nil uid e0.2.users
      · simp only [h0, if_false] at hfe
        rw [← hfe]
        exact hne e0 he0
    · rw [addToMarketCapAlerts, if_neg (by simpa [regGet_isSome_iff] using hmem)]
      constructor
      · rw [List.map_append, List.nodup_append]
        refine ⟨hnd, by simp, ?_⟩
        intro a ha hb
        simp only [List.map_cons, List.map_nil, List.mem_singleton] at hb
        subst hb
        exact hmem ha
      · intro e he
        rcases List.mem_append.mp he with h | h
        · exact hne e h
        · simp only [List.mem_singleton] at h
          simp [h]
  · rintro ⟨hnd, hne⟩
    refine ⟨(filterMap_keys_sublist _ hgfst reg).nodup hnd, ?_⟩
    intro x hx
    rcases List.mem_filterMap.mp hx with ⟨e, he, hge⟩
    by_cases h0 : e.1 = addr
    · exact pruneEntry_users_ne_nil uid e x (by simpa [h0] using hge)
    · simp [h0] at hge
      rw [← hge]
      exact hne e he
  · rintro ⟨hnd, hne⟩
    refine ⟨(filterMap_keys_sublist _ (fun e x => pruneEntry_fst uid e x) reg).nodup hnd, ?_⟩
    intro x hx
    rcases List.mem_filterMap.mp hx with ⟨e, _, hge⟩
    exact pruneEntry_users_ne_nil uid e x hge
  · intro ad hwf hget hemp
    rw [regGet_eq_none_iff]
    intro habs
    rcases List.mem_map.mp habs with ⟨x, hx, hfst⟩
    rcases List.mem_filterMap.mp hx with ⟨e, he, hge⟩
    by_cases h0 : e.1 = addr
    · have hgetad : regGet reg addr = some e.2 := by
        rw [← h0]
        exact regGet_of_mem reg e hwf.1 he
      rw [hget] at hgetad
      have had : ad = e.2 := Option.some.inj hgetad
      have husers : e.2.users = ad.users := by rw [had]
      have hpr : pruneEntry uid e = none := by
        simp [pruneEntry, husers, hemp]
      rw [if_pos h0, hpr] at hge
      exact absurd hge (by simp)
    · have : e.1 = addr := by rw [← hgfst e x hge, hfst]
      exact h0 this

/-- C8 witness: enrolling a new token keeps the invariant, and removing the
sole subscriber 5 of token 0xa deletes the entry so the lookup finds none. -/
theorem alert_registry_invariant_witness :
    regWF (addToMarketCapAlerts [("0xa", AlertData.mk 0 [5])] 3 "0xb" 6) ∧
    regGet (removeFromMarketCapAlerts [("0xa", AlertData.mk 0 [5])] "0xa" 5) "0xa" = none := by
  constructor
  · exact (alert_registry_invariant [("0xa", AlertData.mk 0 [5])] 3 "0xb" 6).1
      ⟨by decide, by decide⟩
  · exact (alert_registry_invariant [("0xa", AlertData.mk 0 [5])] 3 "0xa" 5).2.2.2
      (AlertData.mk 0 [5]) ⟨by decide, by decide⟩ (by decide) (by decide)

/-- The user set of the current entry for addr (empty when absent). -/
def regUsers (reg : AlertReg) (addr : String) : List Nat :=
  match regGet reg addr with
  | none => []
  | some ad => ad.users

/-- One iteration of the auto-subscribe loop at lines 431-436: skip the
token if the user is already in its live entry, otherwise enroll via
addToMarketCapAlerts. -/
def mcAlertStep (now uid : Nat) (acc : AlertReg) (e : String × AlertData) : AlertReg :=
  if uid ∈ regUsers acc e.1 then acc else addToMarketCapAlerts acc now e.1 uid

/-- The whole auto-subscribe loop at lines 431-436: iterate over the
registry entries, enrolling uid into each one it is not yet in. -/
def enrollAll (now uid : Nat) (reg : AlertReg) : AlertReg :=
  reg.foldl (mcAlertStep now uid) reg

/-- Outcome of the threshold reply handler. -/
structure ThresholdOutcome where
  prefs : Prefs
  reg : AlertReg
  accepted : Bool
deriving Repr

/-- The bot.on message reply handler (lines 419-450): parse the reply text
as a JS Number (none models NaN); a non-finite or non-positive value is
rejected with an error reply and no state change; otherwise Math.floor
of the value is stored as the threshold and the user is auto-subscribed
to every token already present in marketCapAlerts. -/
def handleThresholdReply (n : Option ℚ) (uid now : Nat) (p : Prefs) (reg : AlertReg) :
    ThresholdOutcome :=
  match n with
  | none => ⟨p, reg, false⟩
  | some q =>
    if q ≤ 0 then ⟨p, reg, false⟩
    else ⟨{ p with mcUsdThreshold := some (Nat.floor q) }, enrollAll now uid reg, true⟩

theorem addToMarketCapAlerts_mem (acc : AlertReg) (now : Nat) (a : String) (uid : Nat) :
    ∀ x ∈ addToMarketCapAlerts acc now a uid,
      (x.1 = a ∧ uid ∈ x.2.users) ∨ (x ∈ acc ∧ x.1 ≠ a) := by
  intro x hx
  unfold addToMarketCapAlerts at hx
  split at hx
  · rcases List.mem_map.mp hx with ⟨x0, hx0, hfx⟩
    by_cases h0 : x0.1 = a
    · left
      simp only [h0, if_true] at hfx
      rw [← hfx]
      exact ⟨rfl, insertUser_mem_self uid x0.2.users⟩
    · right
      simp only [h0, if_false] at hfx
      rw [← hfx]
      exact ⟨hx0, h0⟩
  · rename_i hni
    rcases List.mem_append.mp hx with h | h
    · right
      refine ⟨h, ?_⟩
      intro heq
      apply hni
      rw [regGet_isSome_iff]
      exact heq ▸ List.mem_map_of_mem Prod.fst h
    · left
      simp only [List.mem_singleton] at h
      rw [h]
      exact ⟨rfl, by simp⟩

theorem mcAlertStep_keys (now uid : Nat) (acc : AlertReg) (e : String × AlertData)
    (h : e.1 ∈ acc.map Prod.fst) :
    (mcAlertStep now uid acc e).map Prod.fst = acc.map Prod.fst := by
  unfold mcAlertStep
  split
  · rfl
  · exact addToMarketCapAlerts_keys_of_mem acc now e.1 uid h

theorem mcAlertStep_preserve (now uid : Nat) (acc : AlertReg) (e : String × AlertData)
    (k : String) (h : ∀ x ∈ acc, x.1 = k → uid ∈ x.2.users) :
    ∀ x ∈ mcAlertStep now uid acc e, x.1 = k → uid ∈ x.2.users := by
  intro x hx hk
  unfold mcAlertStep at hx
  split at hx
  · exact h x hx hk
  · rcases addToMarketCapAlerts_mem acc now e.1 uid x hx with ⟨_, hu⟩ | ⟨hmem, _⟩
    · exact hu
    · exact h x hmem hk

theorem mcAlertStep_self (now uid : Nat) (acc : AlertReg) (e : String × AlertData)
    (hnd : (acc.map Prod.fst).Nodup) :
    ∀ x ∈ mcAlertStep now uid acc e, x.1 = e.1 → uid ∈ x.2.users := by
  intro x hx hk
  unfold mcAlertStep at hx
  split at hx
  · rename_i hu
    have hget : regGet acc x.1 = some x.2 := regGet_of_mem acc x hnd hx
    rw [hk] at hget
    unfold regUsers at hu
    rw [hget] at hu
    exact hu
  · rcases addToMarketCapAlerts_mem acc now e.1 uid x hx with ⟨_, hu⟩ | ⟨_, hne⟩
    · exact hu
    · exact absurd hk hne

theorem enrollAll_fold (now uid : Nat) :
    ∀ (todo : List (String × AlertData)) (acc : AlertReg),
      (∀ e ∈ todo, e.1 ∈ acc.map Prod.fst) →
      (acc.map Prod.fst).Nodup →
      ((todo.foldl (mcAlertStep now uid) acc).map Prod.fst = acc.map Prod.fst) ∧
      (∀ k, (∀ x ∈ acc, x.1 = k → uid ∈ x.2.users) →
         ∀ x ∈ todo.foldl (mcAlertStep now uid) acc, x.1 = k → uid ∈ x.2.users) ∧
      (∀ x ∈ todo.foldl (mcAlertStep now uid) acc,
         x.1 ∈ todo.map Prod.fst → uid ∈ x.2.users) := by
  intro todo
  induction todo with
  | nil =>
    intro acc _ _
    exact ⟨rfl, fun k h => h, by simp⟩
  | cons e rest ih =>
    intro acc hkeys hnd
    have he : e.1 ∈ acc.map Prod.fst := hkeys e (by simp)
    have hstepkeys := mcAlertStep_keys now uid acc e he
    have hrest : ∀ x ∈ rest, x.1 ∈ (mcAlertStep now uid acc e).map Prod.fst := by
      intro x hx
      rw [hstepkeys]
      exact hkeys x (by simp [hx])
    have hnd1 : ((mcAlertStep now uid acc e).map Prod.fst).Nodup := by
      rw [hstepkeys]; exact hnd
    obtain ⟨ihkeys, ihpres, ihall⟩ := ih (mcAlertStep now uid acc e) hrest hnd1
    simp only [List.foldl_cons]
    refine ⟨by rw [ihkeys, hstepkeys], ?_, ?_⟩
    · intro k hk
      exact ihpres k (mcAlertStep_preserve now uid acc e k hk)
    · intro x hx hxk
      simp only [List.map_cons, List.mem_cons] at hxk
      rcases hxk with h | h
      · exact ihpres e.1 (mcAlertStep_self now uid acc e hnd) x hx h
      · exact ihall x hx h

theorem enrollAll_spec (now uid : Nat) (reg : AlertReg)
    (hnd : (reg.map Prod.fst).Nodup) :
    ∀ x ∈ enrollAll now uid reg, uid ∈ x.2.users := by
  intro x hx
  rw [enrollAll] at hx
  obtain ⟨hkeys, _, hall⟩ := enrollAll_fold now uid reg reg
    (fun e he => List.mem_map_of_mem Prod.fst he) hnd
  apply hall x hx
  have hxk : x.1 ∈ (reg.foldl (mcAlertStep now uid) reg).map Prod.fst :=
    List.mem_map_of_mem Prod.fst hx
  rw [hkeys] at hxk
  exact hxk

/-- C9 counterexample: the reply 0.5 parses to a finite positive number, so
the handler accepts it (no error reply is sent), yet the stored threshold
is Math.floor(0.5) = 0 — not a positive integer. -/
theorem threshold_positive_counterexample :
    (handleThresholdReply (some (1 / 2)) 1 0 defaultPrefs []).accepted = true ∧
    (handleThresholdReply (some (1 / 2)) 1 0 defaultPrefs []).prefs.mcUsdThreshold
      = some 0 := by
  constructor
  · norm_num [handleThresholdReply]
  · norm_num [handleThresholdReply, defaultPrefs, Nat.floor_eq_zero]

/-- C9 amended: every accepted input denotes a positive number and stores
Math.floor of it, a nonnegative integer that is positive exactly when the
input value is at least 1; non-numeric and non-positive inputs are
rejected and leave the threshold (and the registry) unchanged. -/
theorem threshold_set_validation (n : Option ℚ) (p : Prefs) (reg : AlertReg) (uid now : Nat) :
    (∀ q, n = some q → 0 < q →
       (handleThresholdReply n uid now p reg).accepted = true ∧
       (handleThresholdReply n uid now p reg).prefs.mcUsdThreshold = some (Nat.floor q) ∧
       (0 < Nat.floor q ↔ 1 ≤ q)) ∧
    ((n = none ∨ ∃ q, n = some q ∧ q ≤ 0) →
       (handleThresholdReply n uid now p reg).accepted = false ∧
       (handleThresholdReply n uid now p reg).prefs = p ∧
       (handleThresholdReply n uid now p reg).reg = reg) := by
  constructor
  · rintro q rfl hq
    simp only [handleThresholdReply, if_neg (not_le.mpr hq)]
    simp [Nat.floor_pos]
  · rintro (rfl | ⟨q, rfl, hq⟩)
    · simp [handleThresholdReply]
    · simp [handleThresholdReply, hq]

/-- C9 witness: the reply 25 is accepted and stores the positive integer 25;
the non-numeric reply is rejected and changes nothing. -/
theorem threshold_set_validation_witness :
    ((handleThresholdReply (some 25) 1 0 defaultPrefs []).accepted = true ∧
     (handleThresholdReply (some 25) 1 0 defaultPrefs []).prefs.mcUsdThreshold
       = some (Nat.floor (25 : ℚ)) ∧
     (0 < Nat.floor (25 : ℚ) ↔ 1 ≤ (25 : ℚ))) ∧
    ((handleThresholdReply none 1 0 defaultPrefs []).accepted = false ∧
     (handleThresholdReply none 1 0 defaultPrefs []).prefs = defaultPrefs ∧
     (handleThresholdReply none 1 0 defaultPrefs []).reg = []) := by
  constructor
  · exact (threshold_set_validation (some 25) defaultPrefs [] 1 0).1 25 rfl (by norm_num)
  · exact (threshold_set_validation none defaultPrefs [] 1 0).2 (Or.inl rfl)

/-- C10: when a threshold-set reply is accepted, the user ends up enrolled
in the alert entry of every token currently present in the registry, not
only tokens pushed to them later. -/
theorem threshold_enrolls_every_token (q : ℚ) (p : Prefs) (reg : AlertReg) (uid now : Nat)
    (hq : 0 < q) (hnd : (reg.map Prod.fst).Nodup) :
    ∀ x ∈ (handleThresholdReply (some q) uid now p reg).reg, uid ∈ x.2.users := by
  simp only [handleThresholdReply, if_neg (not_le.mpr hq)]
  exact enrollAll_spec now uid reg hnd

/-- C10 witness: user 7 sets a threshold while two tokens are registered to
other users; afterwards 7 is in both entries. -/
theorem threshold_enrolls_every_token_witness :
    ((handleThresholdReply (some 25) 7 3 defaultPrefs
        [("0xa", AlertData.mk 0 [5]), ("0xb", AlertData.mk 1 [6])]).reg.all
      (fun x => decide (7 ∈ x.2.users))) = true := by
  rw [List.all_eq_true]
  intro x hx
  rw [decide_eq_true_eq]
  exact threshold_enrolls_every_token 25 defaultPrefs
    [("0xa", AlertData.mk 0 [5]), ("0xb", AlertData.mk 1 [6])] 7 3 (by norm_num) (by decide) x hx

/-- The configured reference asset (WOKB) address, line 23. -/
def WOKB_ADDR : String := "0xe538905cf8410324e03a5a23c1c177a474d59b2b"

/-- JS String.prototype.toLowerCase. -/
def strLower (s : String) : String := ⟨s.data.map Char.toLower⟩

/-- The formatEther divisor, 10^18. -/
def E18 : ℚ := 10 ^ 18

/-- The pool data read at lines 90-92. -/
structure PoolData where
  token0 : String
  token1 : String
  reserve0 : Nat
  reserve1 : Nat
deriving Repr, DecidableEq

/-- Price derivation at lines 94-102: the slot equal to the reference asset
under case-insensitive comparison orients the ratio of the two
formatEther-scaled reserves as reference asset per token; the token-side
reserve is guarded to be positive, otherwise no price is produced. -/
def priceInWOKB (p : PoolData) : Option ℚ :=
  if strLower p.token0 = strLower WOKB_ADDR then
    if 0 < p.reserve1 then
      some (((p.reserve0 : ℚ) / E18) / ((p.reserve1 : ℚ) / E18))
    else none
  else if strLower p.token1 = strLower WOKB_ADDR then
    if 0 < p.reserve0 then
      some (((p.reserve1 : ℚ) / E18) / ((p.reserve0 : ℚ) / E18))
    else none
  else none

/-- The per-token outbound reads of one monitor cycle.  The catches at
lines 77-78 default a failed totalSupply to 0 and failed decimals to 18;
pool = none models the pair-contract try block (lines 83-106) throwing,
which is caught and skips the token for the cycle. -/
structure TokenFetch where
  supplyRes : Option Nat
  decimalsRes : Option Nat
  pool : Option PoolData
deriving Repr, DecidableEq

/-- Market cap of one token for one cycle (lines 74-114): none means the
token is silently skipped (pool fetch threw, neither slot matched the
reference asset, the guarded reserve was zero, or the computed price was
0 and hence falsy at line 108); otherwise decimal-adjusted total supply
times the price, the reference asset being valued at exactly 1 USD. -/
def tokenMarketCap (tf : TokenFetch) : Option ℚ :=
  match tf.pool with
  | none => none
  | some p =>
    match priceInWOKB p with
    | none => none
    | some pr =>
      if pr = 0 then none
      else some (((tf.supplyRes.getD 0 : ℚ) / 10 ^ tf.decimalsRes.getD 18) * pr)

/-- The per-user threshold test at line 120: the stored threshold must be
truthy (set and nonzero) and the market cap at or above it. -/
def wantsAlert (p : Prefs) (mc : ℚ) : Bool :=
  match p.mcUsdThreshold with
  | none => false
  | some t => (t != 0) && decide ((t : ℚ) ≤ mc)

/-- Alerts produced for one registry entry in one cycle (lines 72-140): a
skipped token yields none; otherwise one alert per subscriber passing the
threshold test. -/
def tokenAlerts (prefs : Nat → Prefs) (fetch : String → TokenFetch)
    (e : String × AlertData) : List (String × Nat) :=
  match tokenMarketCap (fetch e.1) with
  | none => []
  | some mc => (e.2.users.filter (fun u => wantsAlert (prefs u) mc)).map (fun u => (e.1, u))

/-- The 5-minute check interval (line 55). -/
def MC_CHECK_INTERVAL : Nat := 5 * 60 * 1000

/-- One invocation of checkMarketCapAlerts (lines 65-141): self-throttle on
the wall clock, then scan every registry entry.  Returns the dispatched
alerts and the new lastMcCheck. -/
def checkMarketCapAlerts (now lastMc : Nat) (reg : AlertReg) (prefs : Nat → Prefs)
    (fetch : String → TokenFetch) : List (String × Nat) × Nat :=
  if now - lastMc < MC_CHECK_INTERVAL then ([], lastMc)
  else ((reg.map (tokenAlerts prefs fetch)).flatten, now)

theorem E18_ne_zero : E18 ≠ 0 := by norm_num [E18]

theorem div_E18_cancel (a b : ℚ) : a / E18 / (b / E18) = a / b :=
  div_div_div_cancel_right₀ E18_ne_zero a b

/-- Shared concrete evaluation: reference asset in slot 0, reserves
1000 and 500 base units, supply 10000, decimals 0 give market cap 20000. -/
theorem tokenMarketCap_example :
    tokenMarketCap ⟨some 10000, some 0, some (PoolData.mk WOKB_ADDR "0xtoken" 1000 500)⟩
      = some 20000 := by
  have hpr : priceInWOKB (PoolData.mk WOKB_ADDR "0xtoken" 1000 500)
      = some (((1000 : Nat) : ℚ) / ((500 : Nat) : ℚ)) := by
    rw [priceInWOKB, if_pos rfl, if_pos (by norm_num), div_E18_cancel]
  simp only [tokenMarketCap, hpr]
  norm_num

/-- C3: the pool slot equal to the configured reference asset under
case-insensitive comparison orients the price as reference-asset reserve
over token reserve; market cap is the decimal-adjusted supply times that
price (concretely, reserves 1000/500 with supply 10000 and decimals 0
give price 2 and market cap 20000); and a pool with no matching slot, or
with the relevant reserve zero, makes the token be skipped for the cycle
(no alerts from its entry). -/
theorem marketcap_price_orientation (p : PoolData) (s d : Nat) :
    (strLower p.token0 = strLower WOKB_ADDR → 0 < p.reserve0 → 0 < p.reserve1 →
       tokenMarketCap ⟨some s, some d, some p⟩ =
         some (((s : ℚ) / 10 ^ d) * ((p.reserve0 : ℚ) / (p.reserve1 : ℚ)))) ∧
    (strLower p.token0 ≠ strLower WOKB_ADDR → strLower p.token1 = strLower WOKB_ADDR →
       0 < p.reserve0 → 0 < p.reserve1 →
       tokenMarketCap ⟨some s, some d, some p⟩ =
         some (((s : ℚ) / 10 ^ d) * ((p.reserve1 : ℚ) / (p.reserve0 : ℚ)))) ∧
    (strLower p.token0 ≠ strLower WOKB_ADDR → strLower p.token1 ≠ strLower WOKB_ADDR →
       tokenMarketCap ⟨some s, some d, some p⟩ = none) ∧
    (strLower p.token0 = strLower WOKB_ADDR → p.reserve1 = 0 →
       tokenMarketCap ⟨some s, some d, some p⟩ = none) ∧
    (strLower p.token0 ≠ strLower WOKB_ADDR → strLower p.token1 = strLower WOKB_ADDR →
       p.reserve0 = 0 → tokenMarketCap ⟨some s, some d, some p⟩ = none) ∧
    (∀ (prefs : Nat → Prefs) (fetch : String → TokenFetch) (e : String × AlertData),
       tokenMarketCap (fetch e.1) = none → tokenAlerts prefs fetch e = []) ∧
    tokenMarketCap ⟨some 10000, some 0, some (PoolData.mk WOKB_ADDR "0xtoken" 1000 500)⟩
      = some 20000 := by
  refine ⟨?_, ?_, ?_, ?_, ?_, ?_, tokenMarketCap_example⟩
  · intro h0 hr0 hr1
    have hpr : priceInWOKB p = some ((p.reserve0 : ℚ) / (p.reserve1 : ℚ)) := by
      rw [priceInWOKB, if_pos h0, if_pos hr1, div_E18_cancel]
    have hprne : ((p.reserve0 : ℚ) / (p.reserve1 : ℚ)) ≠ 0 :=
      div_ne_zero (Nat.cast_ne_zero.mpr hr0.ne') (Nat.cast_ne_zero.mpr hr1.ne')
    simp only [tokenMarketCap, hpr, if_neg hprne]
    simp
  · intro h0 h1 hr0 hr1
    have hpr : priceInWOKB p = some ((p.reserve1 : ℚ) / (p.reserve0 : ℚ)) := by
      rw [priceInWOKB, if_neg h0, if_pos h1, if_pos hr0, div_E18_cancel]
    have hprne : ((p.reserve1 : ℚ) / (p.reserve0 : ℚ)) ≠ 0 :=
      div_ne_zero (Nat.cast_ne_zero.mpr hr1.ne') (Nat.cast_ne_zero.mpr hr0.ne')
    simp only [tokenMarketCap, hpr, if_neg hprne]
    simp
  · intro h0 h1
    have hpr : priceInWOKB p = none := by
      rw [priceInWOKB, if_neg h0, if_neg h1]
    simp [tokenMarketCap, hpr]
  · intro h0 hr1
    have hpr : priceInWOKB p = none := by
      rw [priceInWOKB, if_pos h0, if_neg (by simp [hr1])]
    simp [tokenMarketCap, hpr]
  · intro h0 h1 hr0
    have hpr : priceInWOKB p = none := by
      rw [priceInWOKB, if_neg h0, if_pos h1, if_neg (by simp [hr0])]
    simp [tokenMarketCap, hpr]
  · intro prefs fetch e h
    simp [tokenAlerts, h]

/-- C3 witness: the reference asset sits in the token0 slot with reserves
1000 and 500 and the price formula applies, giving market cap 20000. -/
theorem marketcap_price_orientation_witness :
    tokenMarketCap ⟨some 10000, some 0, some (PoolData.mk WOKB_ADDR "0xtoken" 1000 500)⟩ =
      some ((((10000 : Nat) : ℚ) / 10 ^ (0 : Nat)) *
        (((PoolData.mk WOKB_ADDR "0xtoken" 1000 500).reserve0 : ℚ) /
          ((PoolData.mk WOKB_ADDR "0xtoken" 1000 500).reserve1 : ℚ))) :=
  (marketcap_price_orientation (PoolData.mk WOKB_ADDR "0xtoken" 1000 500) 10000 0).1
    rfl (by norm_num) (by norm_num)

/-- C5: the monitor self-throttles: a first invocation at or past the
interval does a real check and records its time; a second invocation
before the interval has elapsed since that real check is a no-op,
sending no alerts and leaving lastMcCheck at the first check's time. -/
theorem mc_check_throttle (t1 t2 lastMc : Nat) (reg : AlertReg) (prefs : Nat → Prefs)
    (fetch : String → TokenFetch)
    (h1 : MC_CHECK_INTERVAL ≤ t1 - lastMc) (h2 : t2 - t1 < MC_CHECK_INTERVAL) :
    (checkMarketCapAlerts t1 lastMc reg prefs fetch).2 = t1 ∧
    checkMarketCapAlerts t2 (checkMarketCapAlerts t1 lastMc reg prefs fetch).2 reg prefs fetch
      = ([], t1) := by
  have hreal : ¬ (t1 - lastMc < MC_CHECK_INTERVAL) := not_lt.mpr h1
  constructor
  · simp [checkMarketCapAlerts, hreal]
  · simp [checkMarketCapAlerts, hreal, h2]

/-- C5 witness: invocations at t = 300000 and t = 300001 with the interval
300000 ms: the first is real, the second is a no-op. -/
theorem mc_check_throttle_witness :
    (checkMarketCapAlerts 300000 0 [] (fun _ => defaultPrefs)
        (fun _ => ⟨none, none, none⟩)).2 = 300000 ∧
    checkMarketCapAlerts 300001
        (checkMarketCapAlerts 300000 0 [] (fun _ => defaultPrefs)
          (fun _ => ⟨none, none, none⟩)).2 [] (fun _ => defaultPrefs)
        (fun _ => ⟨none, none, none⟩) = ([], 300000) :=
  mc_check_throttle 300000 300001 0 [] (fun _ => defaultPrefs) (fun _ => ⟨none, none, none⟩)
    (by norm_num [MC_CHECK_INTERVAL]) (by norm_num [MC_CHECK_INTERVAL])

/-- C4: a subscriber with a set (nonzero) threshold at or below the computed
market cap of a watched token receives the alert in a real check cycle,
and again in the next real check cycle — no cooldown or per-alert dedup
suppresses the repeat. -/
theorem mc_realert_every_cycle (t1 t2 lastMc : Nat) (reg : AlertReg) (prefs : Nat → Prefs)
    (fetch : String → TokenFetch) (addr : String) (ad : AlertData) (uid t : Nat) (mc : ℚ)
    (hreg : (addr, ad) ∈ reg) (huser : uid ∈ ad.users)
    (hthr : (prefs uid).mcUsdThreshold = some t) (ht0 : t ≠ 0)
    (hmc : tokenMarketCap (fetch addr) = some mc) (hge : (t : ℚ) ≤ mc)
    (h1 : MC_CHECK_INTERVAL ≤ t1 - lastMc) (h2 : MC_CHECK_INTERVAL ≤ t2 - t1) :
    (addr, uid) ∈ (checkMarketCapAlerts t1 lastMc reg prefs fetch).1 ∧
    (addr, uid) ∈ (checkMarketCapAlerts t2
        (checkMarketCapAlerts t1 lastMc reg prefs fetch).2 reg prefs fetch).1 := by
  have hmem : (addr, uid) ∈ tokenAlerts prefs fetch (addr, ad) := by
    simp only [tokenAlerts, hmc]
    apply List.mem_map.mpr
    refine ⟨uid, ?_, rfl⟩
    apply List.mem_filter.mpr
    refine ⟨huser, ?_⟩
    simp [wantsAlert, hthr, ht0, hge]
  have hin : ∀ now lastm : Nat, ¬ (now - lastm < MC_CHECK_INTERVAL) →
      (addr, uid) ∈ (checkMarketCapAlerts now lastm reg prefs fetch).1 := by
    intro now lastm hcond
    simp only [checkMarketCapAlerts, hcond, if_false]
    exact List.mem_flatten.mpr
      ⟨tokenAlerts prefs fetch (addr, ad), List.mem_map_of_mem _ hreg, hmem⟩
  refine ⟨hin t1 lastMc (not_lt.mpr h1), ?_⟩
  have hsnd : (checkMarketCapAlerts t1 lastMc reg prefs fetch).2 = t1 := by
    simp [checkMarketCapAlerts, not_lt.mpr h1]
  rw [hsnd]
  exact hin t2 t1 (not_lt.mpr h2)

/-- C4 witness: subscriber 7 with threshold 15000 on a token whose market
cap computes to 20000 is alerted in the real cycle at t = 300000 and
again in the real cycle at t = 600000. -/
theorem mc_realert_every_cycle_witness :
    (("0xtoken", 7) ∈ (checkMarketCapAlerts 300000 0 [("0xtoken", ⟨0, [7]⟩)]
        (fun _ => ⟨false, some 15000, "en"⟩)
        (fun _ => ⟨some 10000, some 0,
          some (PoolData.mk WOKB_ADDR "0xtoken" 1000 500)⟩)).1) ∧
    (("0xtoken", 7) ∈ (checkMarketCapAlerts 600000
        (checkMarketCapAlerts 300000 0 [("0xtoken", ⟨0, [7]⟩)]
          (fun _ => ⟨false, some 15000, "en"⟩)
          (fun _ => ⟨some 10000, some 0,
            some (PoolData.mk WOKB_ADDR "0xtoken" 1000 500)⟩)).2
        [("0xtoken", ⟨0, [7]⟩)] (fun _ => ⟨false, some 15000, "en"⟩)
        (fun _ => ⟨some 10000, some 0,
          some (PoolData.mk WOKB_ADDR "0xtoken" 1000 500)⟩)).1) :=
  mc_realert_every_cycle 300000 600000 0 [("0xtoken", ⟨0, [7]⟩)]
    (fun _ => ⟨false, some 15000, "en"⟩)
    (fun _ => ⟨some 10000, some 0, some (PoolData.mk WOKB_ADDR "0xtoken" 1000 500)⟩)
    "0xtoken" ⟨0, [7]⟩ 7 15000 20000 (by simp) (by simp) rfl (by norm_num)
    tokenMarketCap_example (by norm_num)
    (by norm_num [MC_CHECK_INTERVAL]) (by norm_num [MC_CHECK_INTERVAL])

end PumpWatch
